import Mathlib

/-!
Verification of the faststack prefetch-and-cache core.

The definitions below are a shallow embedding of:
* `faststack/faststack/imaging/cache.py` (`ByteLRUCache`), together with the
  cachetools `Cache`/`LRUCache` base-class behaviour that it inherits
  (cachetools is a third-party dependency, not shipped in the repository;
  its `__setitem__` / `__getitem__` / `popitem` / `MutableMapping.clear`
  semantics are reproduced here),
* `faststack/faststack/imaging/prefetch.py` (`Prefetcher`),
* `faststack/app.py` (`FastStackApp.get_decoded_image`, `set_cache_size`,
  `set_zoomed`).

Python integers are modelled as `Int`; sizes computed by the injected sizing
function are `Int` (the code injects byte counts).  Failure by exception
(`ValueError`, `AttributeError`) is modelled with `Except`.  The decoded image
payload is a type parameter `V`; the pixel-level decode pipeline is out of
scope (spec section 1) and is abstracted to a success flag.
-/

namespace FastStack

/-! ## Byte-budgeted LRU cache (`imaging/cache.py` + cachetools) -/

/-- One cache entry.  `key`/`val` mirror cachetools `Cache.__data`, `sz` is the
size recorded in `Cache.__size` at insertion time.  The entry list of a cache
is kept in the order of cachetools `LRUCache.__order` (head = least recently
used).  `touch` is ghost instrumentation: the logical time at which the entry
was last promoted by `move_to_end`, used to state the LRU claims. -/
structure LRUEntry (K V : Type) where
  key : K
  val : V
  sz : Int
  touch : Nat
deriving DecidableEq, Repr

/-- State of `ByteLRUCache` (`cache.py` lines 12-49).  `currsize`/`maxsize`
mirror `Cache.__currsize`/`Cache.__maxsize` (the constructor passes
`maxsize=max_bytes`).  `evictCount` counts invocations of the `on_evict`
observer fired by the overridden `popitem` (`cache.py` lines 37-49).  `clock`
is the ghost timestamp source for `touch`.  `maxBytesAttr` models the plain
Python instance attribute `max_bytes`: `ByteLRUCache.__init__` never assigns
it, so it starts absent (`none`); reading it while absent raises
`AttributeError`. -/
structure ByteLRUCache (K V : Type) where
  entries : List (LRUEntry K V)
  currsize : Int
  maxsize : Int
  evictCount : Nat
  clock : Nat
  maxBytesAttr : Option Int
deriving DecidableEq, Repr

variable {K V : Type} [DecidableEq K] [DecidableEq V]

/-- Constructor `ByteLRUCache(max_bytes, size_of, on_evict)`: empty data, the
byte budget stored as cachetools `maxsize`, and no `max_bytes` attribute. -/
def ByteLRUCache.init (maxBytes : Int) : ByteLRUCache K V :=
  { entries := [], currsize := 0, maxsize := maxBytes,
    evictCount := 0, clock := 0, maxBytesAttr := none }

/-- Dictionary lookup `self.__data[key]` combined with `self.__size[key]`. -/
def ByteLRUCache.lookup (c : ByteLRUCache K V) (k : K) : Option (LRUEntry K V) :=
  c.entries.find? (fun e => decide (e.key = k))

/-- Membership test `key in self` (cachetools `Cache.__contains__`), which
does not promote the entry. -/
def ByteLRUCache.containsKey (c : ByteLRUCache K V) (k : K) : Bool :=
  (c.lookup k).isSome

/-- `ByteLRUCache.popitem` (`cache.py` lines 37-49): evicts the least recently
used entry (head of the LRU order, per cachetools `LRUCache.popitem`), fires
the `on_evict` observer once, and returns the evicted pair.  Returns `none`
when the cache is empty (`KeyError` in cachetools). -/
def ByteLRUCache.popitem (c : ByteLRUCache K V) :
    Option ((K × V) × ByteLRUCache K V) :=
  match c.entries with
  | [] => none
  | e :: rest =>
      some ((e.key, e.val),
        { c with entries := rest, currsize := c.currsize - e.sz,
                 evictCount := c.evictCount + 1 })

/-- Eviction loop inside cachetools `Cache.__setitem__`:
`while self.__currsize + size > maxsize: self.popitem()`.  The loop pops one
entry per iteration, so the stored entry count bounds its iterations; the
recursion is phrased structurally over that explicit bound (supplied by
`evictWhile`) to keep the definition computable.  The empty-cache branch is
unreachable in cachetools because `size > maxsize` already raised. -/
def ByteLRUCache.evictLoop (size : Int) :
    Nat → ByteLRUCache K V → ByteLRUCache K V
  | 0, c => c
  | Nat.succ fuel, c =>
      if c.currsize + size > c.maxsize then
        match c.popitem with
        | none => c
        | some (_, c2) => ByteLRUCache.evictLoop size fuel c2
      else c

def ByteLRUCache.evictWhile (size : Int) (c : ByteLRUCache K V) :
    ByteLRUCache K V :=
  c.evictLoop size c.entries.length

/-- Guard of the eviction loop:
`if key not in self.__data or self.__size[key] < size`. -/
def ByteLRUCache.needEvict (size : Int) (k : K) (c : ByteLRUCache K V) : Bool :=
  match c.lookup k with
  | none => true
  | some e => decide (e.sz < size)

/-- Cache state after the (conditional) eviction loop of `Cache.__setitem__`. -/
def ByteLRUCache.afterEvict (size : Int) (k : K) (c : ByteLRUCache K V) :
    ByteLRUCache K V :=
  if c.needEvict size k then c.evictWhile size else c

/-- `diffsize`, computed from the dictionary state after the eviction loop
(the loop may have evicted the key that is being replaced). -/
def ByteLRUCache.diffsizeAt (size : Int) (k : K) (c1 : ByteLRUCache K V) : Int :=
  match c1.lookup k with
  | some e => size - e.sz
  | none => size

/-- Body of `Cache.__setitem__` past the `ValueError` guard:
`self.__data[key] = value; self.__size[key] = size; currsize += diffsize`,
followed by the `LRUCache.__update` promotion `move_to_end(key)`. -/
def ByteLRUCache.putBody (szf : V → Int) (k : K) (v : V) (c : ByteLRUCache K V) :
    ByteLRUCache K V :=
  let size := szf v
  let c1 := c.afterEvict size k
  { c1 with
    entries := c1.entries.filter (fun e => decide (¬ e.key = k)) ++
      [⟨k, v, size, c1.clock⟩],
    currsize := c1.currsize + c1.diffsizeAt size k,
    clock := c1.clock + 1 }

/-- Write path `cache[key] = value`, that is cachetools `Cache.__setitem__`
followed by the `LRUCache` promotion `__update` (`move_to_end`), as inherited
by `ByteLRUCache.__setitem__` (`cache.py` lines 29-35, which only adds
logging).  `szf` is the injected `size_of` function.  A value larger than the
budget raises `ValueError`, modelled as `Except.error`. -/
def ByteLRUCache.setitem (szf : V → Int) (k : K) (v : V) (c : ByteLRUCache K V) :
    Except Unit (ByteLRUCache K V) :=
  if szf v > c.maxsize then .error ()
  else .ok (c.putBody szf k v)

/-- Read path `cache[key]` on a hit: cachetools `LRUCache.__getitem__`
returns the value and promotes the entry to most recently used. -/
def ByteLRUCache.getitem (k : K) (c : ByteLRUCache K V) :
    Option (V × ByteLRUCache K V) :=
  match c.lookup k with
  | none => none
  | some e =>
      some (e.val,
        { c with
          entries := c.entries.filter (fun e2 => decide (¬ e2.key = k)) ++
            [{ e with touch := c.clock }],
          clock := c.clock + 1 })

/-- `cache.clear()`: `ByteLRUCache` defines no `clear`, so the inherited
`MutableMapping.clear` runs, which calls `self.popitem()` repeatedly until
`KeyError`; each call goes through the `ByteLRUCache.popitem` override and
therefore fires the `on_evict` observer once per removed entry. -/
def ByteLRUCache.clearLoop : Nat → ByteLRUCache K V → ByteLRUCache K V
  | 0, c => c
  | Nat.succ fuel, c =>
      match c.popitem with
      | none => c
      | some (_, c2) => ByteLRUCache.clearLoop fuel c2

def ByteLRUCache.clear (c : ByteLRUCache K V) : ByteLRUCache K V :=
  c.clearLoop c.entries.length

/-! ## The cache invariant -/

/-- Sum of the recorded sizes of all stored entries. -/
def entsSize (l : List (LRUEntry K V)) : Int :=
  (l.map (fun e => e.sz)).sum

/-- Well-formedness of a cache state: the incrementally maintained `currsize`
equals the sum of stored entry sizes, the total is within the byte budget,
sizes are byte counts (nonnegative), keys are unique, the entry list is
strictly ordered by last-touch time (so its head is the least recently
touched entry), and all timestamps are in the past. -/
structure CacheWF (c : ByteLRUCache K V) : Prop where
  size_eq : c.currsize = entsSize c.entries
  within : c.currsize ≤ c.maxsize
  sz_nonneg : ∀ e ∈ c.entries, 0 ≤ e.sz
  keys_nodup : (c.entries.map (fun e => e.key)).Nodup
  touch_sorted : c.entries.Pairwise (fun a b => a.touch < b.touch)
  touch_lt : ∀ e ∈ c.entries, e.touch < c.clock

theorem entsSize_nil : entsSize ([] : List (LRUEntry K V)) = 0 := rfl

theorem entsSize_cons (e : LRUEntry K V) (l : List (LRUEntry K V)) :
    entsSize (e :: l) = e.sz + entsSize l := by
  simp [entsSize]

theorem entsSize_append (l1 l2 : List (LRUEntry K V)) :
    entsSize (l1 ++ l2) = entsSize l1 + entsSize l2 := by
  simp [entsSize]

theorem lookup_mem {c : ByteLRUCache K V} {k : K} {e : LRUEntry K V}
    (h : c.lookup k = some e) : e ∈ c.entries ∧ e.key = k := by
  refine ⟨List.mem_of_find?_eq_some h, ?_⟩
  have := List.find?_some h
  simpa using this

theorem lookup_none {c : ByteLRUCache K V} {k : K}
    (h : c.lookup k = none) : ∀ e ∈ c.entries, ¬ e.key = k := by
  intro e he
  have := List.find?_eq_none.mp h e he
  simpa using this

/-- Removing the entries with key `k` from a key-unique list subtracts exactly
the size of the (unique) entry carrying `k`. -/
theorem entsSize_filter_of_mem {l : List (LRUEntry K V)} {k : K}
    {e : LRUEntry K V} (hnd : (l.map (fun e => e.key)).Nodup)
    (hmem : e ∈ l) (hkey : e.key = k) :
    entsSize (l.filter (fun e2 => decide (¬ e2.key = k))) = entsSize l - e.sz := by
  induction l with
  | nil => simp at hmem
  | cons a tl ih =>
      simp only [List.map_cons, List.nodup_cons] at hnd
      rcases List.mem_cons.mp hmem with h1 | h1
      · subst h1
        have hfil : tl.filter (fun e2 => decide (¬ e2.key = k)) = tl := by
          apply List.filter_eq_self.mpr
          intro b hb
          simp only [decide_eq_true_eq]
          intro hbk
          apply hnd.1
          have hbe : e.key = b.key := by rw [hkey, hbk]
          rw [hbe]
          exact List.mem_map_of_mem _ hb
        have hcond : (decide (¬ e.key = k)) = false := by simp [hkey]
        rw [List.filter_cons, hcond]
        simp only [Bool.false_eq_true, if_false]
        rw [hfil, entsSize_cons]
        ring
      · have hne : (decide (¬ a.key = k)) = true := by
          simp only [decide_eq_true_eq]
          intro hak
          apply hnd.1
          have hae : a.key = e.key := by rw [hak, hkey]
          rw [hae]
          exact List.mem_map_of_mem _ h1
        rw [List.filter_cons, hne]
        simp only [if_true]
        rw [entsSize_cons, entsSize_cons, ih hnd.2 h1]
        ring

theorem filter_eq_self_of_lookup_none {c : ByteLRUCache K V} {k : K}
    (h : c.lookup k = none) :
    c.entries.filter (fun e2 => decide (¬ e2.key = k)) = c.entries := by
  apply List.filter_eq_self.mpr
  intro b hb
  simpa using lookup_none h b hb

theorem popitem_wf {c c2 : ByteLRUCache K V} {kv : K × V}
    (hwf : CacheWF c) (h : c.popitem = some (kv, c2)) : CacheWF c2 := by
  unfold ByteLRUCache.popitem at h
  cases hc : c.entries with
  | nil => rw [hc] at h; simp at h
  | cons e rest =>
      rw [hc] at h
      simp only [Option.some.injEq, Prod.mk.injEq] at h
      rw [← h.2]
      have hsz := hwf.size_eq
      rw [hc, entsSize_cons] at hsz
      have hnn := hwf.sz_nonneg
      rw [hc] at hnn
      have hsorted := hwf.touch_sorted
      rw [hc] at hsorted
      have hnd := hwf.keys_nodup
      rw [hc] at hnd
      have htl := hwf.touch_lt
      rw [hc] at htl
      refine ⟨?_, ?_, ?_, ?_, ?_, ?_⟩
      · simpa using by omega
      · have := hwf.within
        have he : 0 ≤ e.sz := hnn e (by simp)
        simp only
        omega
      · intro e2 he2; exact hnn e2 (by simp [he2])
      · simpa using (List.nodup_cons.mp (by simpa using hnd)).2
      · exact (List.pairwise_cons.mp hsorted).2
      · intro e2 he2; exact htl e2 (by simp [he2])

theorem popitem_maxsize {c c2 : ByteLRUCache K V} {kv : K × V}
    (h : c.popitem = some (kv, c2)) :
    c2.maxsize = c.maxsize ∧ c2.clock = c.clock := by
  unfold ByteLRUCache.popitem at h
  cases hc : c.entries with
  | nil => rw [hc] at h; simp at h
  | cons e rest =>
      rw [hc] at h
      simp only [Option.some.injEq, Prod.mk.injEq] at h
      rw [← h.2]
      exact ⟨rfl, rfl⟩

theorem popitem_none {c : ByteLRUCache K V} (h : c.popitem = none) :
    c.entries = [] := by
  unfold ByteLRUCache.popitem at h
  cases hc : c.entries with
  | nil => rfl
  | cons e rest => rw [hc] at h; simp at h

theorem popitem_length {c c2 : ByteLRUCache K V} {kv : K × V}
    (h : c.popitem = some (kv, c2)) :
    c.entries.length = c2.entries.length + 1 := by
  unfold ByteLRUCache.popitem at h
  cases hc : c.entries with
  | nil => rw [hc] at h; simp at h
  | cons e rest =>
      rw [hc] at h
      simp only [Option.some.injEq, Prod.mk.injEq] at h
      rw [← h.2]
      simp

theorem popitem_evictCount {c c2 : ByteLRUCache K V} {kv : K × V}
    (h : c.popitem = some (kv, c2)) :
    c2.evictCount = c.evictCount + 1 ∧ c2.maxBytesAttr = c.maxBytesAttr := by
  unfold ByteLRUCache.popitem at h
  cases hc : c.entries with
  | nil => rw [hc] at h; simp at h
  | cons e rest =>
      rw [hc] at h
      simp only [Option.some.injEq, Prod.mk.injEq] at h
      rw [← h.2]
      exact ⟨rfl, rfl⟩

theorem evictLoop_wf (size : Int) (fuel : Nat) {c : ByteLRUCache K V}
    (hwf : CacheWF c) : CacheWF (c.evictLoop size fuel) := by
  induction fuel generalizing c with
  | zero => exact hwf
  | succ fuel ih =>
      simp only [ByteLRUCache.evictLoop]
      split
      · cases hpop : c.popitem with
        | none => exact hwf
        | some p =>
            obtain ⟨kv, c2⟩ := p
            exact ih (popitem_wf hwf hpop)
      · exact hwf

theorem evictWhile_wf {c : ByteLRUCache K V} (size : Int)
    (hwf : CacheWF c) : CacheWF (c.evictWhile size) :=
  evictLoop_wf size c.entries.length hwf

theorem evictLoop_fields (size : Int) (fuel : Nat) (c : ByteLRUCache K V) :
    (c.evictLoop size fuel).maxsize = c.maxsize ∧
      (c.evictLoop size fuel).clock = c.clock := by
  induction fuel generalizing c with
  | zero => exact ⟨rfl, rfl⟩
  | succ fuel ih =>
      simp only [ByteLRUCache.evictLoop]
      split
      · cases hpop : c.popitem with
        | none => exact ⟨rfl, rfl⟩
        | some p =>
            obtain ⟨kv, c2⟩ := p
            have hrec := ih c2
            have hf := popitem_maxsize hpop
            exact ⟨hf.1 ▸ hrec.1, hf.2 ▸ hrec.2⟩
      · exact ⟨rfl, rfl⟩

theorem evictWhile_fields (size : Int) (c : ByteLRUCache K V) :
    (c.evictWhile size).maxsize = c.maxsize ∧
      (c.evictWhile size).clock = c.clock :=
  evictLoop_fields size c.entries.length c

theorem evictLoop_post (size : Int) (fuel : Nat) {c : ByteLRUCache K V}
    (hlen : c.entries.length ≤ fuel) :
    (c.evictLoop size fuel).currsize + size ≤ c.maxsize ∨
      (c.evictLoop size fuel).entries = [] := by
  induction fuel generalizing c with
  | zero =>
      right
      show c.entries = []
      exact List.length_eq_zero.mp (Nat.le_zero.mp hlen)
  | succ fuel ih =>
      simp only [ByteLRUCache.evictLoop]
      split
      · cases hpop : c.popitem with
        | none =>
            right
            show c.entries = []
            exact popitem_none hpop
        | some p =>
            obtain ⟨kv, c2⟩ := p
            have hlen2 : c2.entries.length ≤ fuel := by
              have := popitem_length hpop
              omega
            have hms : c2.maxsize = c.maxsize := (popitem_maxsize hpop).1
            have hrec := ih hlen2
            rw [hms] at hrec
            exact hrec
      · next hcond => left; omega

/-- Loop postcondition of the eviction loop in `Cache.__setitem__`: either the
incoming value now fits within the budget, or the cache was emptied. -/
theorem evictWhile_post (size : Int) (c : ByteLRUCache K V) :
    (c.evictWhile size).currsize + size ≤ c.maxsize ∨
      (c.evictWhile size).entries = [] :=
  evictLoop_post size c.entries.length (le_refl _)

/-- Elements kept by the key-removal filter are entries of the original list
whose key differs from `k`. -/
theorem mem_keyFilter {l : List (LRUEntry K V)} {k : K} {e : LRUEntry K V}
    (h : e ∈ l.filter (fun e2 => decide (¬ e2.key = k))) :
    e ∈ l ∧ ¬ e.key = k := by
  have := List.mem_filter.mp h
  exact ⟨this.1, by simpa using this.2⟩

theorem afterEvict_wf {c : ByteLRUCache K V} (size : Int) (k : K)
    (hwf : CacheWF c) : CacheWF (c.afterEvict size k) := by
  unfold ByteLRUCache.afterEvict
  split
  · exact evictWhile_wf size hwf
  · exact hwf

theorem afterEvict_fields (size : Int) (k : K) (c : ByteLRUCache K V) :
    (c.afterEvict size k).maxsize = c.maxsize ∧
      (c.afterEvict size k).clock = c.clock := by
  unfold ByteLRUCache.afterEvict
  split
  · exact evictWhile_fields size c
  · exact ⟨rfl, rfl⟩

/-- Budget accounting after the conditional eviction loop: either the value
fits, or the loop emptied the cache, or the loop was skipped because the key
is resident with an old size at least `size`. -/
theorem afterEvict_cases {c : ByteLRUCache K V} (size : Int) (k : K) :
    (c.afterEvict size k).currsize + size ≤ c.maxsize ∨
      (c.afterEvict size k).entries = [] ∨
      (c.afterEvict size k = c ∧
        ∃ e, c.lookup k = some e ∧ size ≤ e.sz) := by
  unfold ByteLRUCache.afterEvict
  split
  · rcases evictWhile_post size c with h | h
    · exact Or.inl h
    · exact Or.inr (Or.inl h)
  · next hne =>
      right; right
      refine ⟨rfl, ?_⟩
      unfold ByteLRUCache.needEvict at hne
      cases hLk : c.lookup k with
      | none => rw [hLk] at hne; simp at hne
      | some e =>
          rw [hLk] at hne
          simp only [decide_eq_true_eq] at hne
          exact ⟨e, rfl, by omega⟩

/-- The write path preserves the cache invariant, provided the injected
sizing function returns byte counts (is nonnegative). -/
theorem setitem_wf {szf : V → Int} (hsz : ∀ w, 0 ≤ szf w) (k : K) (v : V)
    {c c2 : ByteLRUCache K V} (hwf : CacheWF c)
    (h : c.setitem szf k v = .ok c2) : CacheWF c2 := by
  unfold ByteLRUCache.setitem at h
  split at h
  · simp at h
  · next hguard =>
    simp only [Except.ok.injEq] at h
    subst h
    unfold ByteLRUCache.putBody
    simp only
    have hwf1 : CacheWF (c.afterEvict (szf v) k) := afterEvict_wf (szf v) k hwf
    generalize hc1 : c.afterEvict (szf v) k = c1 at *
    have hmax1 : c1.maxsize = c.maxsize := (hc1 ▸ afterEvict_fields (szf v) k c).1
    have hcases : c1.currsize + szf v ≤ c.maxsize ∨ c1.entries = [] ∨
        (c1 = c ∧ ∃ e, c.lookup k = some e ∧ szf v ≤ e.sz) := by
      have := afterEvict_cases (c := c) (szf v) k
      rw [hc1] at this
      exact this
    constructor
    case size_eq =>
      simp only
      rw [entsSize_append, entsSize_cons, entsSize_nil]
      unfold ByteLRUCache.diffsizeAt
      cases hLk : c1.lookup k with
      | none =>
          rw [filter_eq_self_of_lookup_none hLk, ← hwf1.size_eq]
          ring
      | some e =>
          obtain ⟨hmem, hkey⟩ := lookup_mem hLk
          rw [entsSize_filter_of_mem hwf1.keys_nodup hmem hkey, ← hwf1.size_eq]
          ring
    case within =>
      simp only
      unfold ByteLRUCache.diffsizeAt
      rcases hcases with hfit | hemp | ⟨heq, e0, hLk0, hle0⟩
      · cases hLk : c1.lookup k with
        | none => dsimp only; rw [hmax1]; omega
        | some e =>
            have he := hwf1.sz_nonneg e (lookup_mem hLk).1
            dsimp only; rw [hmax1]; omega
      · have hz : c1.currsize = 0 := by
          rw [hwf1.size_eq, hemp, entsSize_nil]
        have hLk : c1.lookup k = none := by
          unfold ByteLRUCache.lookup
          rw [hemp]
          rfl
        rw [hLk, hmax1, hz]
        dsimp only
        omega
      · subst heq
        rw [hLk0]
        dsimp only
        have := hwf1.within
        rw [hmax1]
        omega
    case sz_nonneg =>
      intro e he
      rcases List.mem_append.mp he with hf | hb
      · exact hwf1.sz_nonneg e (mem_keyFilter hf).1
      · simp only [List.mem_singleton] at hb
        subst hb
        exact hsz v
    case keys_nodup =>
      simp only [List.map_append, List.map_cons, List.map_nil]
      rw [List.nodup_append]
      refine ⟨?_, List.nodup_singleton k, ?_⟩
      · exact hwf1.keys_nodup.sublist
          ((List.filter_sublist c1.entries).map (fun e => e.key))
      · intro a ha
        simp only [List.mem_map] at ha
        obtain ⟨e, he, hek⟩ := ha
        have := (mem_keyFilter he).2
        simp only [List.mem_singleton]
        rw [← hek]
        exact this
    case touch_sorted =>
      rw [List.pairwise_append]
      refine ⟨hwf1.touch_sorted.sublist (List.filter_sublist c1.entries),
        List.pairwise_singleton _ _, ?_⟩
      intro a ha b hb
      simp only [List.mem_singleton] at hb
      subst hb
      exact hwf1.touch_lt a (mem_keyFilter ha).1
    case touch_lt =>
      intro e he
      simp only at he ⊢
      rcases List.mem_append.mp he with hf | hb
      · exact Nat.lt_succ_of_lt (hwf1.touch_lt e (mem_keyFilter hf).1)
      · simp only [List.mem_singleton] at hb
        subst hb
        exact Nat.lt_succ_self _

/-- The read path preserves the cache invariant. -/
theorem getitem_wf (k : K) {c : ByteLRUCache K V} {v : V}
    {c2 : ByteLRUCache K V} (hwf : CacheWF c)
    (h : ByteLRUCache.getitem k c = some (v, c2)) : CacheWF c2 := by
  unfold ByteLRUCache.getitem at h
  cases hLk : c.lookup k with
  | none => rw [hLk] at h; simp at h
  | some e =>
      rw [hLk] at h
      simp only [Option.some.injEq, Prod.mk.injEq] at h
      obtain ⟨hmem, hkey⟩ := lookup_mem hLk
      rw [← h.2]
      constructor
      case size_eq =>
        simp only
        rw [entsSize_append, entsSize_cons, entsSize_nil,
          entsSize_filter_of_mem hwf.keys_nodup hmem hkey, ← hwf.size_eq]
        ring
      case within => exact hwf.within
      case sz_nonneg =>
        intro e2 he2
        rcases List.mem_append.mp he2 with hf | hb
        · exact hwf.sz_nonneg e2 (mem_keyFilter hf).1
        · simp only [List.mem_singleton] at hb
          subst hb
          exact hwf.sz_nonneg e hmem
      case keys_nodup =>
        simp only [List.map_append, List.map_cons, List.map_nil]
        rw [List.nodup_append]
        refine ⟨hwf.keys_nodup.sublist
          ((List.filter_sublist c.entries).map (fun e2 => e2.key)),
          List.nodup_singleton _, ?_⟩
        intro a ha
        simp only [List.mem_map] at ha
        obtain ⟨e2, he2, hek⟩ := ha
        have hne := (mem_keyFilter he2).2
        simp only [List.mem_singleton]
        rw [← hek, hkey]
        exact hne
      case touch_sorted =>
        rw [List.pairwise_append]
        refine ⟨hwf.touch_sorted.sublist (List.filter_sublist c.entries),
          List.pairwise_singleton _ _, ?_⟩
        intro a ha b hb
        simp only [List.mem_singleton] at hb
        subst hb
        exact hwf.touch_lt a (mem_keyFilter ha).1
      case touch_lt =>
        intro e2 he2
        simp only at he2 ⊢
        rcases List.mem_append.mp he2 with hf | hb
        · exact Nat.lt_succ_of_lt (hwf.touch_lt e2 (mem_keyFilter hf).1)
        · simp only [List.mem_singleton] at hb
          subst hb
          exact Nat.lt_succ_self _

/-- In a well-formed cache, the entry removed by `popitem` is the least
recently touched one: its ghost timestamp is no larger than that of any
stored entry. -/
theorem popitem_evicts_lru {c : ByteLRUCache K V} {kv : K × V}
    {c2 : ByteLRUCache K V} (hwf : CacheWF c)
    (h : c.popitem = some (kv, c2)) :
    ∃ e, c.entries.head? = some e ∧ e.key = kv.1 ∧ e.val = kv.2 ∧
      ∀ e2 ∈ c.entries, e.touch ≤ e2.touch := by
  unfold ByteLRUCache.popitem at h
  cases hc : c.entries with
  | nil => rw [hc] at h; simp at h
  | cons e rest =>
      rw [hc] at h
      simp only [Option.some.injEq, Prod.mk.injEq] at h
      refine ⟨e, rfl, by rw [← h.1], by rw [← h.1], ?_⟩
      intro e2 he2
      rcases List.mem_cons.mp he2 with h1 | h1
      · subst h1; exact le_refl _
      · have hsorted := hwf.touch_sorted
        rw [hc] at hsorted
        exact le_of_lt ((List.pairwise_cons.mp hsorted).1 e2 h1)

/-- A successful read promotes the entry to most recently used: it ends up
last in the LRU order with a strictly maximal ghost timestamp. -/
theorem getitem_promotes (k : K) {c : ByteLRUCache K V} {v : V}
    {c2 : ByteLRUCache K V} (hwf : CacheWF c)
    (h : ByteLRUCache.getitem k c = some (v, c2)) :
    ∃ e, c2.entries.getLast? = some e ∧ e.key = k ∧ e.val = v ∧
      ∀ e2 ∈ c2.entries, e2.touch ≤ e.touch := by
  unfold ByteLRUCache.getitem at h
  cases hLk : c.lookup k with
  | none => rw [hLk] at h; simp at h
  | some e =>
      rw [hLk] at h
      simp only [Option.some.injEq, Prod.mk.injEq] at h
      obtain ⟨hmem, hkey⟩ := lookup_mem hLk
      refine ⟨{ e with touch := c.clock }, ?_, hkey, h.1, ?_⟩
      · rw [← h.2]
        simp [List.getLast?_concat]
      · intro e2 he2
        rw [← h.2] at he2
        simp only at he2
        rcases List.mem_append.mp he2 with hf | hb
        · exact le_of_lt (hwf.touch_lt e2 (mem_keyFilter hf).1)
        · simp only [List.mem_singleton] at hb
          subst hb
          exact le_refl _

/-- A write promotes its key to most recently used. -/
theorem setitem_promotes {szf : V → Int} (k : K) (v : V)
    {c c2 : ByteLRUCache K V} (hwf : CacheWF c)
    (h : c.setitem szf k v = .ok c2) :
    ∃ e, c2.entries.getLast? = some e ∧ e.key = k ∧ e.val = v ∧
      ∀ e2 ∈ c2.entries, e2.touch ≤ e.touch := by
  unfold ByteLRUCache.setitem at h
  split at h
  · simp at h
  · simp only [Except.ok.injEq] at h
    subst h
    unfold ByteLRUCache.putBody
    simp only
    have hwf1 : CacheWF (c.afterEvict (szf v) k) := afterEvict_wf (szf v) k hwf
    refine ⟨⟨k, v, szf v, (c.afterEvict (szf v) k).clock⟩, ?_, rfl, rfl, ?_⟩
    · exact List.getLast?_concat _
    · intro e2 he2
      rcases List.mem_append.mp he2 with hf | hb
      · exact le_of_lt (hwf1.touch_lt e2 (mem_keyFilter hf).1)
      · simp only [List.mem_singleton] at hb
        subst hb
        exact le_refl _

/-! ## Operation sequences on the cache -/

/-- The mutating cache operations visible to clients: `cache[key] = value`,
an explicit `popitem()` eviction, and a `cache[key]` read (which mutates the
LRU order on a hit). -/
inductive CacheOp (K V : Type) where
  | put (k : K) (v : V)
  | evict
  | get (k : K)
deriving DecidableEq, Repr

/-- Effect of one operation on the cache state.  A `put` that raises
`ValueError`, an `evict` on an empty cache (`KeyError`), and a missed `get`
(`KeyError`) leave the state unchanged. -/
def applyOp (szf : V → Int) (c : ByteLRUCache K V) :
    CacheOp K V → ByteLRUCache K V
  | .put k v =>
      match c.setitem szf k v with
      | .ok c2 => c2
      | .error _ => c
  | .evict =>
      match c.popitem with
      | some (_, c2) => c2
      | none => c
  | .get k =>
      match ByteLRUCache.getitem k c with
      | some (_, c2) => c2
      | none => c

def execOps (szf : V → Int) (ops : List (CacheOp K V))
    (c : ByteLRUCache K V) : ByteLRUCache K V :=
  ops.foldl (applyOp szf) c

/-- Nonnegativity of the injected sizing function: the contract of
`get_decoded_image_size` is to return a literal byte count
(`cache.py` lines 52-69, spec section 4.1). -/
def NonnegSize (szf : V → Int) : Prop := ∀ w, 0 ≤ szf w

theorem applyOp_wf {szf : V → Int} (hsz : NonnegSize szf)
    {c : ByteLRUCache K V} (hwf : CacheWF c) (op : CacheOp K V) :
    CacheWF (applyOp szf c op) := by
  cases op with
  | put k v =>
      show CacheWF (match c.setitem szf k v with
        | .ok c2 => c2
        | .error _ => c)
      cases hset : c.setitem szf k v with
      | ok c2 => exact setitem_wf hsz k v hwf hset
      | error u => exact hwf
  | evict =>
      show CacheWF (match c.popitem with
        | some (_, c2) => c2
        | none => c)
      cases hpop : c.popitem with
      | some p =>
          obtain ⟨kv, c2⟩ := p
          exact popitem_wf hwf hpop
      | none => exact hwf
  | get k =>
      show CacheWF (match ByteLRUCache.getitem k c with
        | some (_, c2) => c2
        | none => c)
      cases hget : ByteLRUCache.getitem k c with
      | some p =>
          obtain ⟨v, c2⟩ := p
          exact getitem_wf k hwf hget
      | none => exact hwf

theorem execOps_wf {szf : V → Int} (hsz : NonnegSize szf)
    {c : ByteLRUCache K V} (hwf : CacheWF c) (ops : List (CacheOp K V)) :
    CacheWF (execOps szf ops c) := by
  induction ops generalizing c with
  | nil => exact hwf
  | cons op rest ih => exact ih (applyOp_wf hsz hwf op)

theorem init_wf (maxBytes : Int) (hmb : 0 ≤ maxBytes) :
    CacheWF (ByteLRUCache.init maxBytes : ByteLRUCache K V) := by
  refine ⟨rfl, ?_, ?_, ?_, ?_, ?_⟩ <;> simp [ByteLRUCache.init, entsSize, hmb]

/-! ## `FastStackApp.set_cache_size` (`app.py` lines 1341-1365) -/

/-- Eviction loop of `set_cache_size`:
`while currsize > new_max_bytes and len(cache) > 0: popitem()` (with a
`try popitem except KeyError: break` guard), phrased with the entry count as
structural fuel exactly as `evictWhile`. -/
def evictUntilLoop (newMax : Int) :
    Nat → ByteLRUCache K V → ByteLRUCache K V
  | 0, c => c
  | Nat.succ fuel, c =>
      if c.currsize > newMax then
        match c.popitem with
        | none => c
        | some (_, c2) => evictUntilLoop newMax fuel c2
      else c

def evictUntil (newMax : Int) (c : ByteLRUCache K V) : ByteLRUCache K V :=
  evictUntilLoop newMax c.entries.length c

/-- `FastStackApp.set_cache_size` after the GB-to-bytes conversion
(`app.py` lines 1341-1365): it reads `self.image_cache.max_bytes` — which
raises `AttributeError` when the attribute was never assigned, since neither
`ByteLRUCache.__init__` nor cachetools defines it — then assigns
`self.image_cache.max_bytes = new_max_bytes` (a plain attribute the cachetools
machinery never consults) and evicts until `currsize <= new_max_bytes`.
The cachetools budget `maxsize` is left untouched. -/
def setCacheSize (newMax : Int) (c : ByteLRUCache K V) :
    Except Unit (ByteLRUCache K V) :=
  match c.maxBytesAttr with
  | none => .error ()
  | some oldMax =>
      if oldMax = newMax then .ok c
      else .ok (evictUntil newMax { c with maxBytesAttr := some newMax })

theorem clearLoop_spec (fuel : Nat) {c : ByteLRUCache K V}
    (hlen : c.entries.length ≤ fuel) :
    (ByteLRUCache.clearLoop fuel c).entries = [] ∧
      (ByteLRUCache.clearLoop fuel c).evictCount =
        c.evictCount + c.entries.length := by
  induction fuel generalizing c with
  | zero =>
      have hone : c.entries = [] := List.length_eq_zero.mp (Nat.le_zero.mp hlen)
      constructor
      · show c.entries = []
        exact hone
      · show c.evictCount = c.evictCount + c.entries.length
        rw [hone]
        simp
  | succ fuel ih =>
      simp only [ByteLRUCache.clearLoop]
      cases hpop : c.popitem with
      | none =>
          have hone := popitem_none hpop
          constructor
          · exact hone
          · rw [hone]; simp
      | some p =>
          obtain ⟨kv, c2⟩ := p
          show (ByteLRUCache.clearLoop fuel c2).entries = [] ∧
            (ByteLRUCache.clearLoop fuel c2).evictCount =
              c.evictCount + c.entries.length
          have hl := popitem_length hpop
          have hcnt := (popitem_evictCount hpop).1
          have hlen2 : c2.entries.length ≤ fuel := by omega
          have hrec := ih hlen2
          refine ⟨hrec.1, ?_⟩
          have h2 := hrec.2
          omega

theorem clear_spec (c : ByteLRUCache K V) :
    (c.clear).entries = [] ∧
      (c.clear).evictCount = c.evictCount + c.entries.length :=
  clearLoop_spec c.entries.length (le_refl _)

theorem applyOp_maxsize (szf : V → Int) (c : ByteLRUCache K V)
    (op : CacheOp K V) : (applyOp szf c op).maxsize = c.maxsize := by
  cases op with
  | put k v =>
      show (match c.setitem szf k v with
        | .ok c2 => c2
        | .error _ => c).maxsize = c.maxsize
      cases hset : c.setitem szf k v with
      | ok c2 =>
          unfold ByteLRUCache.setitem at hset
          split at hset
          · simp at hset
          · simp only [Except.ok.injEq] at hset
            rw [← hset]
            unfold ByteLRUCache.putBody
            exact (afterEvict_fields (szf v) k c).1
      | error u => rfl
  | evict =>
      show (match c.popitem with
        | some (_, c2) => c2
        | none => c).maxsize = c.maxsize
      cases hpop : c.popitem with
      | some p =>
          obtain ⟨kv, c2⟩ := p
          exact (popitem_maxsize hpop).1
      | none => rfl
  | get k =>
      show (match ByteLRUCache.getitem k c with
        | some (_, c2) => c2
        | none => c).maxsize = c.maxsize
      cases hget : ByteLRUCache.getitem k c with
      | some p =>
          obtain ⟨v, c2⟩ := p
          unfold ByteLRUCache.getitem at hget
          cases hLk : c.lookup k with
          | none => rw [hLk] at hget; simp at hget
          | some e =>
              rw [hLk] at hget
              simp only [Option.some.injEq, Prod.mk.injEq] at hget
              rw [← hget.2]
      | none => rfl

theorem execOps_maxsize (szf : V → Int) (ops : List (CacheOp K V))
    (c : ByteLRUCache K V) : (execOps szf ops c).maxsize = c.maxsize := by
  induction ops generalizing c with
  | nil => rfl
  | cons op rest ih =>
      show (execOps szf rest (applyOp szf c op)).maxsize = c.maxsize
      rw [ih, applyOp_maxsize]

/-! ## Claims C1, C5, C6 -/

/-- C1: for every sequence of put, evict and get operations on the
byte-budgeted cache starting from a well-formed state, after each operation
settles the tracked total equals the sum of stored entry sizes and stays
within maxBytes (which the operations never change); whenever an eviction
happens it removes the least recently touched entry (the head of the LRU
order, whose ghost timestamp is minimal); and a get hit or a put leaves its
entry most recently used (last in the LRU order, with maximal timestamp). -/
theorem cache_budget_and_lru_invariant (szf : V → Int) (hsz : NonnegSize szf)
    (c0 : ByteLRUCache K V) (hwf0 : CacheWF c0) (ops : List (CacheOp K V)) :
    ((execOps szf ops c0).currsize = entsSize (execOps szf ops c0).entries ∧
      (execOps szf ops c0).currsize ≤ (execOps szf ops c0).maxsize ∧
      (execOps szf ops c0).maxsize = c0.maxsize) ∧
    (∀ kv c2, (execOps szf ops c0).popitem = some (kv, c2) →
      ∃ e, (execOps szf ops c0).entries.head? = some e ∧ e.key = kv.1 ∧
        ∀ e2 ∈ (execOps szf ops c0).entries, e.touch ≤ e2.touch) ∧
    (∀ k v c2, ByteLRUCache.getitem k (execOps szf ops c0) = some (v, c2) →
      ∃ e, c2.entries.getLast? = some e ∧ e.key = k ∧
        ∀ e2 ∈ c2.entries, e2.touch ≤ e.touch) ∧
    (∀ k v c2, (execOps szf ops c0).setitem szf k v = .ok c2 →
      ∃ e, c2.entries.getLast? = some e ∧ e.key = k ∧
        ∀ e2 ∈ c2.entries, e2.touch ≤ e.touch) := by
  have hwf := execOps_wf hsz hwf0 ops
  refine ⟨⟨hwf.size_eq, hwf.within, execOps_maxsize szf ops c0⟩, ?_, ?_, ?_⟩
  · intro kv c2 h
    obtain ⟨e, h1, h2, _, h4⟩ := popitem_evicts_lru hwf h
    exact ⟨e, h1, h2, h4⟩
  · intro k v c2 h
    obtain ⟨e, h1, h2, _, h4⟩ := getitem_promotes k hwf h
    exact ⟨e, h1, h2, h4⟩
  · intro k v c2 h
    obtain ⟨e, h1, h2, _, h4⟩ := setitem_promotes k v hwf h
    exact ⟨e, h1, h2, h4⟩

/-- Size function used by the concrete witnesses: a value is its own byte
count, mirroring the repository tests that drive `size_of` with
`lambda x: x.__sizeof__()`. -/
def szNat : Nat → Int := fun v => (v : Int)

/-- Spec scenario 1: maxBytes 100, put three entries of sizes 50, 40, 30
(keys 1, 2, 3 standing for a, b, c). -/
def scenario1Ops : List (CacheOp Nat Nat) :=
  [.put 1 50, .put 2 40, .put 3 30]

/-- Witness for C1 at spec scenario 1: the hypotheses hold for the fresh
100-byte cache and the resulting state (entry 1 evicted, total 70) is within
budget. -/
theorem cache_budget_and_lru_invariant_witness :
    NonnegSize szNat ∧
    CacheWF (ByteLRUCache.init 100 : ByteLRUCache Nat Nat) ∧
    ((execOps szNat scenario1Ops (ByteLRUCache.init 100)).currsize ≤
      (execOps szNat scenario1Ops (ByteLRUCache.init 100)).maxsize) ∧
    (execOps szNat scenario1Ops
      (ByteLRUCache.init 100) : ByteLRUCache Nat Nat).currsize = 70 ∧
    (execOps szNat scenario1Ops
      (ByteLRUCache.init 100) : ByteLRUCache Nat Nat).containsKey 1 = false :=
  ⟨fun w => Int.natCast_nonneg w,
   init_wf 100 (by decide),
   (cache_budget_and_lru_invariant szNat (fun w => Int.natCast_nonneg w) _
     (init_wf 100 (by decide)) scenario1Ops).1.2.1,
   by decide, by decide⟩

/-- C5: evaluation of the resize path at the failing input of the repository
test `test_max_bytes.py`.  First conjunct: on a freshly constructed
`ByteLRUCache(max_bytes=1000, ...)` the first `set_cache_size` call raises
`AttributeError` when reading `self.image_cache.max_bytes`, because neither
`ByteLRUCache.__init__` nor cachetools ever assigns that attribute.  Second
conjunct: even after assigning `cache.max_bytes = 80` directly (as the test
does), a subsequent put of 50 bytes on a 90-byte-full cache evicts nothing,
because cachetools eviction consults only the constructor-time `maxsize`
(1000): key 1 survives, the total reaches 140 > 80, and the observer never
fires — contradicting the assertions of `test_max_bytes.py` (entry a evicted,
`currsize <= max_bytes`).  The budget used by put decisions is therefore
never updated by a resize. -/
theorem set_cache_size_stale_budget :
    (setCacheSize 80 (ByteLRUCache.init 1000 : ByteLRUCache Nat Nat) =
      .error ()) ∧
    ((execOps szNat [.put 3 50]
        { execOps szNat [.put 1 50, .put 2 40]
            (ByteLRUCache.init 1000 : ByteLRUCache Nat Nat) with
          maxBytesAttr := some 80 }).containsKey 1 = true ∧
      (execOps szNat [.put 3 50]
        { execOps szNat [.put 1 50, .put 2 40]
            (ByteLRUCache.init 1000 : ByteLRUCache Nat Nat) with
          maxBytesAttr := some 80 }).currsize = 140 ∧
      (execOps szNat [.put 3 50]
        { execOps szNat [.put 1 50, .put 2 40]
            (ByteLRUCache.init 1000 : ByteLRUCache Nat Nat) with
          maxBytesAttr := some 80 }).evictCount = 0) := by
  refine ⟨rfl, by decide, by decide, by decide⟩

/-- Concrete one-entry cache used to refute the C6 claim (an installed
observer is modelled by `evictCount` recording its invocations). -/
def oneEntryCache : ByteLRUCache Nat Nat :=
  { entries := [⟨1, 7, 10, 0⟩], currsize := 10, maxsize := 100,
    evictCount := 0, clock := 1, maxBytesAttr := none }

/-- C6 counterexample: on a cache holding one entry, `clear()` does remove
everything, but it does so through `popitem` and fires the eviction observer
once (the invocation count goes from 0 to 1) — refuting the claim that the
observer is not invoked for entries removed by `clear()`. -/
theorem clear_fires_observer_cex :
    (ByteLRUCache.clear oneEntryCache).entries = [] ∧
      (ByteLRUCache.clear oneEntryCache).evictCount = 1 := by decide

/-- C6 (amended): for every cache state, `clear()` removes all entries, but
not as an observer-silent bulk drop: it pops the least recently used entry
repeatedly (the inherited `MutableMapping.clear` calls `popitem` until
`KeyError`), and the eviction observer is invoked exactly once per removed
entry. -/
theorem clear_empties_and_fires_per_entry (c : ByteLRUCache K V) :
    (c.clear).entries = [] ∧
      (c.clear).evictCount = c.evictCount + c.entries.length :=
  clear_spec c

/-! ## Prefetcher (`imaging/prefetch.py`) -/

/-- Observable state of a `concurrent.futures.Future` held in the handle
table: `pending` (not started; `cancel()` succeeds), `running` (started;
`cancel()` fails), `done` (finished or already cancelled; `done()` is true
and `cancel()` fails). -/
inductive FState where
  | pending
  | running
  | done
deriving DecidableEq, Repr

/-- `future.done()`. -/
def FState.isDone : FState → Bool
  | .done => true
  | _ => false

/-- Whether `future.cancel()` succeeds. -/
def FState.cancelOk : FState → Bool
  | .pending => true
  | _ => false

/-- Data captured by a decode task at submission (`submit_task` lines
289-293): the index, the identity of `image_files[index]` (modelled by its
path id), the `generation` argument, and the display generation returned by
`get_display_info()` at that moment. -/
structure Task where
  index : Int
  path : Int
  gen : Int
  dispGen : Int
deriving DecidableEq, Repr

/-- State of `Prefetcher` (`prefetch.py` lines 142-168): the image list
(abstracted to its length, with `image_files[i]` identified by the path id
`i`), the `futures` handle table, the generation counter, the per-generation
`_scheduled` dictionary of index sets, the configured radius, the startup
radius (2), the navigation counter, the radius-expanded flag, and the last
navigation direction (initially 1, forward). -/
structure Prefetcher where
  numImages : Nat
  futures : List (Int × FState)
  generation : Int
  scheduled : List (Int × List Int)
  prefetchRadius : Int
  initialRadius : Int
  navigationCount : Nat
  radiusExpanded : Bool
  lastDirection : Int
deriving DecidableEq, Repr

/-- `Prefetcher.__init__` with a given image count and configured radius. -/
def Prefetcher.init (numImages : Nat) (radius : Int) : Prefetcher :=
  { numImages := numImages, futures := [], generation := 0, scheduled := [],
    prefetchRadius := radius, initialRadius := 2, navigationCount := 0,
    radiusExpanded := false, lastDirection := 1 }

/-- Handle-table lookup `self.futures.get(index)`. -/
def flookup (fs : List (Int × FState)) (i : Int) : Option FState :=
  (fs.find? (fun e => decide (e.1 = i))).map (fun e => e.2)

/-- `self._scheduled.get(g, set())`. -/
def schedGet (sc : List (Int × List Int)) (g : Int) : List Int :=
  ((sc.find? (fun e => decide (e.1 = g))).map (fun e => e.2)).getD []

/-- Store set `l` for generation `g` in the `_scheduled` dictionary. -/
def schedSet (sc : List (Int × List Int)) (g : Int) (l : List Int) :
    List (Int × List Int) :=
  (g, l) :: sc.filter (fun e => decide (¬ e.1 = g))

/-- `index in self.futures and not self.futures[index].done()`
(`submit_task` line 263). -/
def Prefetcher.hasLiveTask (p : Prefetcher) (index : Int) : Bool :=
  match flookup p.futures index with
  | some f => ! f.isDone
  | none => false

/-- `Prefetcher.submit_task` (`prefetch.py` lines 255-295).  If a
non-completed task for `index` exists its handle is returned and nothing else
happens.  Otherwise, with `priority=True`, every other pending task farther
than the safe radius 2 from `index` is cancelled and dropped from the table
(running and completed tasks survive, since `future.cancel()` fails on them);
then a fresh pending future is stored for `index` and the spawned task
captures the `generation` argument and the current display generation.
Callers guarantee `index` is within bounds (`image_files[index]` would raise
otherwise). -/
def Prefetcher.submit_task (p : Prefetcher) (index : Int) (gen : Int)
    (dispGen : Int) (priority : Bool) : Prefetcher × Option Task :=
  if p.hasLiveTask index then (p, none)
  else
    let fs :=
      if priority then
        p.futures.filter (fun e =>
          decide (e.1 = index) || decide ((e.1 - index).natAbs ≤ 2) ||
            ! e.2.cancelOk)
      else p.futures
    ({ p with futures :=
        (index, FState.pending) :: fs.filter (fun e => decide (¬ e.1 = index)) },
     some ⟨index, index, gen, dispGen⟩)

/-- `Prefetcher.cancel_all` (`prefetch.py` lines 536-543): bump the
generation, attempt to cancel every handle, clear the handle table and the
whole `_scheduled` dictionary. -/
def Prefetcher.cancel_all (p : Prefetcher) : Prefetcher :=
  { p with generation := p.generation + 1, futures := [], scheduled := [] }

/-- Asymmetric split of the effective radius (`update_prefetch` lines
210-216).  With the direction bias fixed at 0.7, Python computes
`int(effective_radius * (1 - 0.7))`; for the nonnegative radii the program
uses this equals `3 * r / 10` under integer division, which is how it is
modelled (`(1 - 0.7)` as a binary float is `0.30000000000000004`, whose
product with any radius below 2 ^ 50 floors to the same value as `3 * r / 10`).
Returns `(behind, ahead)`. -/
def splitRadius (r : Int) (dir : Int) : Int × Int :=
  if dir > 0 then
    let behind := max 1 ((3 * r) / 10)
    (behind, r - behind + 1)
  else
    let ahead := max 1 ((3 * r) / 10)
    (r - ahead + 1, ahead)

/-- Effective radius (`update_prefetch` line 204): the startup radius until
the expansion flag is set, the configured radius afterwards. -/
def Prefetcher.effectiveRadius (p : Prefetcher) : Int :=
  if ! p.radiusExpanded then p.initialRadius else p.prefetchRadius

/-- Window clamping (`update_prefetch` lines 218-219):
`start = max(0, current - behind)`, `end = min(len, current + ahead + 1)`.
Returns the half-open interval `[start, stop)`. -/
def Prefetcher.window (p : Prefetcher) (current : Int) : Int × Int :=
  let ba := splitRadius p.effectiveRadius p.lastDirection
  (max 0 (current - ba.1), min (p.numImages : Int) (current + ba.2 + 1))

/-- Bookkeeping prefix of `update_prefetch` (lines 187-204): prune
`_scheduled` entries of superseded generations, record the navigation
direction, count navigations and latch the radius expansion once the count
reaches 2. -/
def Prefetcher.navUpdate (p : Prefetcher) (isNav : Bool) (dir : Option Int) :
    Prefetcher :=
  let p1 := { p with
    scheduled := p.scheduled.filter (fun gs => decide (¬ gs.1 < p.generation)) }
  let p2 :=
    match dir with
    | some d => { p1 with lastDirection := d }
    | none => p1
  if isNav then
    { p2 with
      navigationCount := p2.navigationCount + 1,
      radiusExpanded :=
        p2.radiusExpanded || decide (p2.navigationCount + 1 ≥ 2) }
  else p2

/-- `range(a, b)` over `Int`, as a list. -/
def intRange (a b : Int) : List Int :=
  (List.range (b - a).toNat).map (fun (n : Nat) => a + (n : Int))

/-- `range(a, b, -1)` over `Int`: `a, a - 1, ..., b + 1`. -/
def intRangeRev (a b : Int) : List Int :=
  (List.range (a - b).toNat).map (fun (n : Nat) => a - (n : Int))

/-- Submission priority order (`update_prefetch` lines 239-246): the focus
index first, then the direction of travel (nearest first), then the opposite
side (nearest first). -/
def priorityOrder (current start stop dir : Int) : List Int :=
  if dir > 0 then
    current :: (intRange (current + 1) stop ++ intRangeRev (current - 1) (start - 1))
  else
    current :: (intRangeRev (current - 1) (start - 1) ++ intRange (current + 1) stop)

/-- One step of the submission loop (`update_prefetch` lines 248-253): skip
out-of-bounds indices; submit and record indices not already scheduled and
not in the handle table.  The state component carries the live `scheduled`
set alongside the prefetcher. -/
def submitStep (dispGen : Int) (st : Prefetcher × List Int) (i : Int) :
    Prefetcher × List Int :=
  let q := st.1
  let sc := st.2
  if decide (i < 0) || decide ((q.numImages : Int) ≤ i) then st
  else if decide (i ∈ sc) || (flookup q.futures i).isSome then st
  else ((q.submit_task i q.generation dispGen false).1, i :: sc)

/-- `Prefetcher.update_prefetch` (`prefetch.py` lines 175-253).  The display
generation that inner submissions capture through `get_display_info` is
passed in as `dispGen`. -/
def Prefetcher.update_prefetch (p : Prefetcher) (current : Int)
    (isNav : Bool) (dir : Option Int) (dispGen : Int) : Prefetcher :=
  let p1 := p.navUpdate isNav dir
  let w := p1.window current
  let sched0 := schedGet p1.scheduled p1.generation
  -- cancel stale futures outside the window and forget them (lines 227-235);
  -- only pending futures can be cancelled successfully
  let isStale := fun (e : Int × FState) =>
    (decide (e.1 < w.1) || decide (w.2 ≤ e.1)) && e.2.cancelOk
  let staleIdx := (p1.futures.filter isStale).map (fun e => e.1)
  let p2 := { p1 with futures := p1.futures.filter (fun e => ! isStale e) }
  let sched1 := sched0.filter (fun i => ! staleIdx.contains i)
  -- submit missing in-window indices in priority order (lines 239-253)
  let res := (priorityOrder current w.1 w.2 p2.lastDirection).foldl
    (submitStep dispGen) (p2, sched1)
  { res.1 with scheduled := schedSet res.1.scheduled res.1.generation res.2 }

/-! ## The decode worker (`Prefetcher._decode_and_cache`) -/

/-- Observable outcome of one worker execution: the value returned to the
waiting future (`None`, or `(image_file.path, display_generation)`), and the
cache key passed to `cache_put` when a write happened (`none` when the cache
was not touched). -/
structure WorkerOutcome where
  result : Option (Int × Int)
  written : Option (Int × Int)
deriving DecidableEq, Repr

/-- `Prefetcher._decode_and_cache` (`prefetch.py` lines 297-522).
`liveGenEarly` is the live prefetcher generation read by the early staleness
check (line 304) and `liveGenLate` the one read by the pre-write re-check
(line 503); in a quiescent moment the two coincide.  `decodeOk` abstracts the
out-of-scope decode pipeline: `false` covers decode failures and exceptions,
all of which return `None` without touching the cache.  On success the entry
is written under `build_cache_key(image_file.path, display_generation)` —
the display generation captured at submission — and
`(image_file.path, display_generation)` is returned (lines 507-517). -/
def decode_and_cache (liveGenEarly liveGenLate : Int) (t : Task)
    (decodeOk : Bool) : WorkerOutcome :=
  if decide (¬ t.gen = liveGenEarly) then ⟨none, none⟩
  else if ! decodeOk then ⟨none, none⟩
  else if decide (¬ t.gen = liveGenLate) then ⟨none, none⟩
  else ⟨some (t.path, t.dispGen), some (t.path, t.dispGen)⟩

/-! ## Operation sequences on the prefetcher -/

/-- The operations drivers perform on a `Prefetcher`. -/
inductive PrefOp where
  | submit (index gen dispGen : Int) (priority : Bool)
  | update (current : Int) (isNav : Bool) (dir : Option Int) (dispGen : Int)
  | cancelAll
deriving DecidableEq, Repr

def applyPrefOp (p : Prefetcher) : PrefOp → Prefetcher
  | .submit index gen dispGen priority =>
      (p.submit_task index gen dispGen priority).1
  | .update current isNav dir dispGen =>
      p.update_prefetch current isNav dir dispGen
  | .cancelAll => p.cancel_all

def execPref (ops : List PrefOp) (p : Prefetcher) : Prefetcher :=
  ops.foldl applyPrefOp p

theorem submit_task_generation (p : Prefetcher) (index gen dispGen : Int)
    (priority : Bool) :
    ((p.submit_task index gen dispGen priority).1).generation =
      p.generation := by
  unfold Prefetcher.submit_task
  split
  · rfl
  · rfl

theorem submit_task_numImages (p : Prefetcher) (index gen dispGen : Int)
    (priority : Bool) :
    ((p.submit_task index gen dispGen priority).1).numImages =
      p.numImages := by
  unfold Prefetcher.submit_task
  split
  · rfl
  · rfl

theorem submitStep_generation (dispGen : Int) (st : Prefetcher × List Int)
    (i : Int) :
    ((submitStep dispGen st i).1).generation = st.1.generation := by
  unfold submitStep
  dsimp only
  split
  · rfl
  · split
    · rfl
    · exact submit_task_generation _ _ _ _ _

theorem foldl_submitStep_generation (dispGen : Int) (l : List Int)
    (st : Prefetcher × List Int) :
    ((l.foldl (submitStep dispGen) st).1).generation = st.1.generation := by
  induction l generalizing st with
  | nil => rfl
  | cons i rest ih =>
      rw [List.foldl_cons, ih, submitStep_generation]

theorem navUpdate_generation (p : Prefetcher) (isNav : Bool)
    (dir : Option Int) : (p.navUpdate isNav dir).generation = p.generation := by
  unfold Prefetcher.navUpdate
  dsimp only
  cases dir with
  | none =>
      dsimp only
      split
      · rfl
      · rfl
  | some d =>
      dsimp only
      split
      · rfl
      · rfl

theorem update_prefetch_generation (p : Prefetcher) (current : Int)
    (isNav : Bool) (dir : Option Int) (dispGen : Int) :
    (p.update_prefetch current isNav dir dispGen).generation =
      p.generation := by
  unfold Prefetcher.update_prefetch
  dsimp only
  rw [foldl_submitStep_generation]
  exact navUpdate_generation p isNav dir

/-- The generation counter never decreases under any driver operation. -/
theorem applyPrefOp_generation_mono (p : Prefetcher) (op : PrefOp) :
    p.generation ≤ (applyPrefOp p op).generation := by
  cases op with
  | submit index gen dispGen priority =>
      rw [show applyPrefOp p (.submit index gen dispGen priority) =
        (p.submit_task index gen dispGen priority).1 from rfl,
        submit_task_generation]
  | update current isNav dir dispGen =>
      rw [show applyPrefOp p (.update current isNav dir dispGen) =
        p.update_prefetch current isNav dir dispGen from rfl,
        update_prefetch_generation]
  | cancelAll =>
      show p.generation ≤ p.generation + 1
      omega

theorem execPref_generation_mono (ops : List PrefOp) (p : Prefetcher) :
    p.generation ≤ (execPref ops p).generation := by
  induction ops generalizing p with
  | nil => exact le_refl _
  | cons op rest ih =>
      calc p.generation ≤ (applyPrefOp p op).generation :=
            applyPrefOp_generation_mono p op
        _ ≤ (execPref rest (applyPrefOp p op)).generation := ih _

/-! ## Claim C9 -/

/-- C9: `cancel_all` increments the generation counter by exactly one and
leaves both the futures table and the whole per-generation scheduled
dictionary empty; and every task whose captured generation is at most the
pre-call generation that reaches its pre-write generation check (line 503)
in any state after the call — the post-cancel generation sits in the
pre-write slot, while the generation the earlier check observed is
arbitrary, covering in particular a worker that had already passed the
early check (line 304) when `cancel_all` ran and whose decode succeeded —
returns None without calling `cache_put`. -/
theorem cancel_all_invalidates (p : Prefetcher) :
    ((p.cancel_all).generation = p.generation + 1 ∧
      (p.cancel_all).futures = [] ∧ (p.cancel_all).scheduled = []) ∧
    (∀ (t : Task) (ops : List PrefOp) (gE : Int) (ok : Bool),
      t.gen ≤ p.generation →
      decode_and_cache gE (execPref ops p.cancel_all).generation t ok =
        ⟨none, none⟩) := by
  refine ⟨⟨rfl, rfl, rfl⟩, ?_⟩
  intro t ops gE ok hle
  have hmono := execPref_generation_mono ops p.cancel_all
  have hbump : (p.cancel_all).generation = p.generation + 1 := rfl
  have hlate : ¬ t.gen = (execPref ops p.cancel_all).generation := by omega
  unfold decode_and_cache
  by_cases hE : t.gen = gE
  · rw [if_neg (by simp [hE])]
    cases ok with
    | false => rw [if_pos (by simp)]
    | true => rw [if_neg (by simp), if_pos (by simpa using hlate)]
  · rw [if_pos (by simpa using hE)]

/-- Witness for C9: a concrete prefetcher at generation 0; a task captured
at generation 0 passes its early check (which observed the pre-cancel
generation 0) and decodes successfully, but after `cancel_all` and one
further priority submit its pre-write check fails, so it neither returns a
result nor writes to the cache. -/
theorem cancel_all_invalidates_witness :
    ((Prefetcher.init 100 4).cancel_all.generation =
      (Prefetcher.init 100 4).generation + 1) ∧
    (decode_and_cache 0
      (execPref [.submit 3 1 0 true]
        (Prefetcher.init 100 4).cancel_all).generation
      ⟨7, 7, 0, 0⟩ true = ⟨none, none⟩) ∧
    (Task.mk 7 7 0 0).gen ≤ (Prefetcher.init 100 4).generation :=
  ⟨(cancel_all_invalidates (Prefetcher.init 100 4)).1.1,
   (cancel_all_invalidates (Prefetcher.init 100 4)).2
     ⟨7, 7, 0, 0⟩ [.submit 3 1 0 true] 0 true (by decide),
   by decide⟩

/-! ## Claim C4 -/

theorem find?_filter_eq {α : Type} (l : List α) (pr keep : α → Bool)
    (h : ∀ e ∈ l, pr e = true → keep e = true) :
    (l.filter keep).find? pr = l.find? pr := by
  induction l with
  | nil => rfl
  | cons a tl ih =>
      have htl : ∀ e ∈ tl, pr e = true → keep e = true :=
        fun e he => h e (List.mem_cons_of_mem a he)
      by_cases hpa : pr a = true
      · have hka := h a (List.mem_cons_self a tl) hpa
        rw [List.filter_cons, if_pos hka, List.find?_cons_of_pos _ hpa,
          List.find?_cons_of_pos _ hpa]
      · rw [List.find?_cons_of_neg _ (by simpa using hpa), List.filter_cons]
        by_cases hka : keep a = true
        · rw [if_pos hka, List.find?_cons_of_neg _ (by simpa using hpa)]
          exact ih htl
        · rw [if_neg (by simpa using hka)]
          exact ih htl

theorem flookup_cons_ne (l : List (Int × FState)) {j k : Int} (f : FState)
    (h : ¬ k = j) : flookup ((k, f) :: l) j = flookup l j := by
  unfold flookup
  rw [List.find?_cons_of_neg _ (by simpa using h)]

theorem flookup_cons_self (l : List (Int × FState)) (k : Int) (f : FState) :
    flookup ((k, f) :: l) k = some f := by
  unfold flookup
  rw [List.find?_cons_of_pos _ (by simp)]
  rfl

theorem flookup_some_mem {fs : List (Int × FState)} {j : Int} {f : FState}
    (h : flookup fs j = some f) : (j, f) ∈ fs := by
  unfold flookup at h
  cases hf : fs.find? (fun e => decide (e.1 = j)) with
  | none => rw [hf] at h; simp at h
  | some e =>
      rw [hf] at h
      simp only [Option.map_some'] at h
      have hm := List.mem_of_find?_eq_some hf
      have hp := List.find?_some hf
      simp only [decide_eq_true_eq] at hp
      have he : e = (j, f) := by
        obtain ⟨e1, e2⟩ := e
        simp only at hp h
        have h2 : e2 = f := Option.some.inj h
        rw [hp, h2]
      rw [← he]
      exact hm

/-- Shape of the handle table after a priority submit that actually runs the
sweep (no live task for `k` at call time). -/
theorem submit_task_priority_eq (p : Prefetcher) (k g d : Int)
    (hk : p.hasLiveTask k = false) :
    (p.submit_task k g d true).1 =
      { p with futures := ((k, FState.pending) ::
          (p.futures.filter (fun e => decide (e.1 = k) ||
            decide ((e.1 - k).natAbs ≤ 2) || ! e.2.cancelOk)).filter
            (fun e => decide (¬ e.1 = k))) } := by
  unfold Prefetcher.submit_task
  rw [if_neg (by simp [hk])]
  rfl

/-- C4 (amended): provided no non-completed task for `k` is already in the
handle table, after `submit_task(k, g, priority=True)`: every surviving entry
at an index farther than the safe radius 2 from `k` (other than `k` itself)
is not pending — the pending ones were cancelled and removed, while running
or completed ones survive because `future.cancel()` fails on them — and
entries within the safe radius (other than `k`) are untouched.  (When a
non-completed task for `k` already exists, the call returns that handle and
performs no sweep at all, which is what refutes the unconditional claim.) -/
theorem submit_priority_sweep (p : Prefetcher) (k g d : Int)
    (hk : p.hasLiveTask k = false) :
    (∀ j f, flookup ((p.submit_task k g d true).1).futures j = some f →
      ¬ j = k → 2 < (j - k).natAbs → ¬ f = FState.pending) ∧
    (∀ j, ¬ j = k → (j - k).natAbs ≤ 2 →
      flookup ((p.submit_task k g d true).1).futures j =
        flookup p.futures j) := by
  rw [submit_task_priority_eq p k g d hk]
  constructor
  · intro j f hf hjk hfar
    rw [flookup_cons_ne _ _ (fun he => hjk he.symm)] at hf
    have hmem := flookup_some_mem hf
    have h1 := (List.mem_filter.mp hmem).1
    have hcond := (List.mem_filter.mp h1).2
    simp only [Bool.or_eq_true, decide_eq_true_eq, Bool.not_eq_true'] at hcond
    rcases hcond with (h | h) | h
    · exact absurd h hjk
    · omega
    · intro hfp
      rw [hfp] at h
      simp [FState.cancelOk] at h
  · intro j hjk hnear
    rw [flookup_cons_ne _ _ (fun he => hjk he.symm)]
    unfold flookup
    rw [find?_filter_eq _ _ _ ?h2, find?_filter_eq _ _ _ ?h1]
    case h2 =>
      intro e he hpr
      simp only [decide_eq_true_eq] at hpr ⊢
      rw [hpr]
      exact hjk
    case h1 =>
      intro e he hpr
      simp only [decide_eq_true_eq] at hpr
      simp only [Bool.or_eq_true, decide_eq_true_eq]
      left; right
      rw [hpr]
      exact hnear

/-- Spec scenario 5: tasks for 5, 19, 21, 40 in flight (21 already running)
plus a completed one at 10, before a priority submit for index 20. -/
def scenario5 : Prefetcher :=
  { Prefetcher.init 100 4 with
    futures := [(5, .pending), (19, .pending), (21, .running),
                (40, .pending), (10, .done)] }

/-- Witness for C4 (amended) at spec scenario 5: no live task for 20 exists;
the near-neighbour 19 is untouched, the distant pending entries 5 and 40 are
swept, the running entry 21 survives, and the fresh task for 20 is pending. -/
theorem submit_priority_sweep_witness :
    scenario5.hasLiveTask 20 = false ∧
    flookup ((scenario5.submit_task 20 0 0 true).1).futures 19 =
      flookup scenario5.futures 19 ∧
    flookup ((scenario5.submit_task 20 0 0 true).1).futures 5 = none ∧
    flookup ((scenario5.submit_task 20 0 0 true).1).futures 40 = none ∧
    flookup ((scenario5.submit_task 20 0 0 true).1).futures 21 =
      some FState.running ∧
    flookup ((scenario5.submit_task 20 0 0 true).1).futures 20 =
      some FState.pending :=
  ⟨by decide,
   (submit_priority_sweep scenario5 20 0 0 (by decide)).2 19 (by decide)
     (by decide),
   by decide, by decide, by decide, by decide⟩

/-- Prefetcher state with a live (pending) task for index 20 and a distant
pending task at index 5, used to refute the unconditional C4 claim. -/
def liveTaskAt20 : Prefetcher :=
  { Prefetcher.init 100 4 with futures := [(20, .pending), (5, .pending)] }

/-- C4 counterexample: when a non-completed task for index 20 already exists,
`submit_task(20, priority=True)` returns that handle and runs no sweep, so
the pending task at index 5 — distance 15 > 2 from the requested index —
remains in the handle table, refuting the claim that after the call no
in-flight task farther than the safety radius remains. -/
theorem submit_priority_no_sweep_cex :
    flookup ((liveTaskAt20.submit_task 20 0 0 true).1).futures 5 =
      some FState.pending ∧
    ((5 : Int) - 20).natAbs > 2 ∧
    FState.pending.isDone = false := by decide

/-! ## Claim C7 -/

/-- C7 counterexample: with configured radius 4, 100 images and focus 50,
an `update_prefetch` call before any navigation does not schedule index 46
(nor 53 or 54): the claimed symmetric window [46, 54] is wrong.  The full
scheduled set for the live generation is {49, 50, 51, 52}. -/
theorem startup_window_cex :
    ¬ ((46 : Int) ∈ schedGet
      ((Prefetcher.init 100 4).update_prefetch 50 false none 0).scheduled
      ((Prefetcher.init 100 4).update_prefetch 50 false none 0).generation) ∧
    ¬ ((54 : Int) ∈ schedGet
      ((Prefetcher.init 100 4).update_prefetch 50 false none 0).scheduled
      ((Prefetcher.init 100 4).update_prefetch 50 false none 0).generation) ∧
    ((49 : Int) ∈ schedGet
      ((Prefetcher.init 100 4).update_prefetch 50 false none 0).scheduled
      ((Prefetcher.init 100 4).update_prefetch 50 false none 0).generation) := by
  decide

/-- C7 (amended): with configured radius 4, 100 images, focus 50 and no
navigation yet, `update_prefetch` uses the startup radius 2 (the expansion to
the configured radius only happens after two navigations) and the default
forward direction, computing the clamped window [49, 53) — one index behind
the focus, two ahead — and scheduling exactly the indices 49, 50, 51 and 52,
submitted in priority order 50, 51, 52, 49. -/
theorem startup_window_amended :
    ((Prefetcher.init 100 4).navUpdate false none).window 50 = (49, 53) ∧
    schedGet ((Prefetcher.init 100 4).update_prefetch 50 false none 0).scheduled
      ((Prefetcher.init 100 4).update_prefetch 50 false none 0).generation =
      [49, 52, 51, 50] ∧
    ((Prefetcher.init 100 4).update_prefetch 50 false none 0).futures.map
      (fun e => e.1) = [49, 52, 51, 50] ∧
    priorityOrder 50 49 53 1 = [50, 51, 52, 49] := by
  decide

/-! ## Claim C8 -/

theorem mem_intRange {a b i : Int} : i ∈ intRange a b ↔ a ≤ i ∧ i < b := by
  unfold intRange
  constructor
  · intro hm
    obtain ⟨n, hn, he⟩ := List.mem_map.mp hm
    rw [List.mem_range] at hn
    omega
  · intro h
    apply List.mem_map.mpr
    refine ⟨(i - a).toNat, ?_, ?_⟩
    · rw [List.mem_range]
      omega
    · omega

theorem mem_intRangeRev {a b i : Int} :
    i ∈ intRangeRev a b ↔ b < i ∧ i ≤ a := by
  unfold intRangeRev
  constructor
  · intro hm
    obtain ⟨n, hn, he⟩ := List.mem_map.mp hm
    rw [List.mem_range] at hn
    omega
  · intro h
    apply List.mem_map.mpr
    refine ⟨(a - i).toNat, ?_, ?_⟩
    · rw [List.mem_range]
      omega
    · omega

/-- Every in-window index occurs in the submission priority order,
whatever the direction. -/
theorem mem_priorityOrder {current start stop dir i : Int}
    (h1 : start ≤ i) (h2 : i < stop) :
    i ∈ priorityOrder current start stop dir := by
  unfold priorityOrder
  rcases lt_trichotomy i current with hlt | heq | hgt
  · have hm : i ∈ intRangeRev (current - 1) (start - 1) :=
      mem_intRangeRev.mpr ⟨by omega, by omega⟩
    split
    · exact List.mem_cons_of_mem _ (List.mem_append.mpr (Or.inr hm))
    · exact List.mem_cons_of_mem _ (List.mem_append.mpr (Or.inl hm))
  · rw [heq]
    split
    · exact List.mem_cons_self _ _
    · exact List.mem_cons_self _ _
  · have hm : i ∈ intRange (current + 1) stop :=
      mem_intRange.mpr ⟨by omega, by omega⟩
    split
    · exact List.mem_cons_of_mem _ (List.mem_append.mpr (Or.inl hm))
    · exact List.mem_cons_of_mem _ (List.mem_append.mpr (Or.inr hm))

/-- Bounds on the asymmetric split: for an effective radius of at least 1,
both the trailing and the leading share are between 1 and the radius.
(The trailing share is floored at 1 explicitly; the leading share is
`r - trailing + 1`, at least 1 exactly when the radius is.) -/
theorem splitRadius_bounds {r : Int} (hr : 1 ≤ r) (dir : Int) :
    1 ≤ (splitRadius r dir).1 ∧ (splitRadius r dir).1 ≤ r ∧
      1 ≤ (splitRadius r dir).2 ∧ (splitRadius r dir).2 ≤ r := by
  have hdiv0 : 0 ≤ (3 * r) / 10 := Int.ediv_nonneg (by omega) (by omega)
  have hdivr : (3 * r) / 10 ≤ r := by
    calc (3 * r) / 10 ≤ (10 * r) / 10 :=
          Int.ediv_le_ediv (by norm_num) (by omega)
      _ = r := by omega
  unfold splitRadius
  split
  · dsimp only
    omega
  · dsimp only
    omega

/-- The computed window always contains the focus and both neighbours when
the effective radius is at least 1 and the focus is at least the radius away
from both ends. -/
theorem window_bounds (q : Prefetcher) (current : Int)
    (hr : 1 ≤ q.effectiveRadius) (hlo : q.effectiveRadius ≤ current)
    (hhi : current < (q.numImages : Int) - q.effectiveRadius) :
    (q.window current).1 ≤ current - 1 ∧
      current + 1 < (q.window current).2 := by
  have hb := splitRadius_bounds hr q.lastDirection
  unfold Prefetcher.window
  dsimp only
  omega

/-- An index is covered when it is in the live scheduled set or has a handle
in the futures table. -/
def covered (st : Prefetcher × List Int) (i : Int) : Prop :=
  i ∈ st.2 ∨ (flookup st.1.futures i).isSome = true

theorem flookup_submit_self (p : Prefetcher) (i gen dispGen : Int) :
    (flookup ((p.submit_task i gen dispGen false).1).futures i).isSome =
      true := by
  unfold Prefetcher.submit_task
  split
  · next h =>
      unfold Prefetcher.hasLiveTask at h
      cases hf : flookup p.futures i with
      | none => rw [hf] at h; simp at h
      | some f => simp [hf]
  · dsimp only
    rw [flookup_cons_self]
    rfl

theorem flookup_submit_other (p : Prefetcher) (i gen dispGen j : Int)
    (hne : ¬ i = j) :
    flookup ((p.submit_task i gen dispGen false).1).futures j =
      flookup p.futures j := by
  unfold Prefetcher.submit_task
  split
  · rfl
  · show flookup ((i, FState.pending) ::
        p.futures.filter (fun e => decide (¬ e.1 = i))) j = flookup p.futures j
    rw [flookup_cons_ne _ _ hne]
    have hkeep : ∀ e ∈ p.futures,
        (fun (e : Int × FState) => decide (e.1 = j)) e = true →
        (fun (e : Int × FState) => decide (¬ e.1 = i)) e = true := by
      intro e he hpr
      simp only [decide_eq_true_eq] at hpr ⊢
      rw [hpr]
      exact fun hji => hne hji.symm
    unfold flookup
    rw [find?_filter_eq _ _ _ hkeep]

theorem submitStep_mono (dispGen : Int) (st : Prefetcher × List Int)
    (j i : Int) (h : covered st i) : covered (submitStep dispGen st j) i := by
  unfold submitStep
  dsimp only
  split
  · exact h
  · split
    · exact h
    · by_cases hij : j = i
      · right
        rw [← hij]
        exact flookup_submit_self st.1 j st.1.generation dispGen
      · cases h with
        | inl hsc => left; exact List.mem_cons_of_mem _ hsc
        | inr hfu =>
            right
            rw [flookup_submit_other st.1 j st.1.generation dispGen i hij]
            exact hfu

theorem submitStep_covers (dispGen : Int) (st : Prefetcher × List Int)
    (i : Int) (h0 : 0 ≤ i) (h1 : i < (st.1.numImages : Int)) :
    covered (submitStep dispGen st i) i := by
  unfold submitStep
  dsimp only
  split
  · next hcond =>
      exfalso
      simp only [Bool.or_eq_true, decide_eq_true_eq] at hcond
      omega
  · split
    · next hcond =>
        simp only [Bool.or_eq_true, decide_eq_true_eq] at hcond
        exact hcond
    · left
      exact List.mem_cons_self _ _

theorem submitStep_numImages (dispGen : Int) (st : Prefetcher × List Int)
    (j : Int) : (submitStep dispGen st j).1.numImages = st.1.numImages := by
  unfold submitStep
  dsimp only
  split
  · rfl
  · split
    · rfl
    · exact submit_task_numImages _ _ _ _ _

theorem foldl_covered_mono (dispGen : Int) (l : List Int)
    (st : Prefetcher × List Int) (i : Int) (h : covered st i) :
    covered (l.foldl (submitStep dispGen) st) i := by
  induction l generalizing st with
  | nil => exact h
  | cons j rest ih =>
      rw [List.foldl_cons]
      exact ih _ (submitStep_mono dispGen st j i h)

theorem foldl_covers (dispGen : Int) (l : List Int)
    (st : Prefetcher × List Int) (i : Int) (hi : i ∈ l) (h0 : 0 ≤ i)
    (h1 : i < (st.1.numImages : Int)) :
    covered (l.foldl (submitStep dispGen) st) i := by
  induction l generalizing st with
  | nil => simp at hi
  | cons j rest ih =>
      rw [List.foldl_cons]
      rcases List.mem_cons.mp hi with heq | hmem
      · rw [heq] at h0 h1 ⊢
        exact foldl_covered_mono dispGen rest _ j
          (submitStep_covers dispGen st j h0 h1)
      · have hN : i < ((submitStep dispGen st j).1.numImages : Int) := by
          rw [submitStep_numImages]
          exact h1
        exact ih _ hmem hN

theorem schedGet_schedSet (sc : List (Int × List Int)) (g : Int)
    (l : List Int) : schedGet (schedSet sc g l) g = l := by
  unfold schedGet schedSet
  rw [List.find?_cons_of_pos _ (by simp)]
  rfl

theorem navUpdate_numImages (p : Prefetcher) (isNav : Bool)
    (dir : Option Int) : (p.navUpdate isNav dir).numImages = p.numImages := by
  unfold Prefetcher.navUpdate
  dsimp only
  cases dir with
  | none =>
      dsimp only
      split
      · rfl
      · rfl
  | some d =>
      dsimp only
      split
      · rfl
      · rfl

/-- After `update_prefetch`, every in-bounds index inside the computed window
is scheduled for the live generation or has a handle in the futures table. -/
theorem update_prefetch_covers (p : Prefetcher) (current : Int)
    (isNav : Bool) (dir : Option Int) (dispGen : Int) (i : Int)
    (h1 : ((p.navUpdate isNav dir).window current).1 ≤ i)
    (h2 : i < ((p.navUpdate isNav dir).window current).2)
    (h0 : 0 ≤ i) (hN : i < (p.numImages : Int)) :
    i ∈ schedGet (p.update_prefetch current isNav dir dispGen).scheduled
        (p.update_prefetch current isNav dir dispGen).generation ∨
      (flookup (p.update_prefetch current isNav dir dispGen).futures i).isSome
        = true := by
  unfold Prefetcher.update_prefetch
  dsimp only
  rw [foldl_submitStep_generation]
  dsimp only
  rw [schedGet_schedSet]
  have hcov := foldl_covers dispGen
    (priorityOrder current ((p.navUpdate isNav dir).window current).1
      ((p.navUpdate isNav dir).window current).2
      (p.navUpdate isNav dir).lastDirection)
    ({ p.navUpdate isNav dir with
        futures := (p.navUpdate isNav dir).futures.filter (fun e =>
          ! ((decide (e.1 < ((p.navUpdate isNav dir).window current).1) ||
              decide (((p.navUpdate isNav dir).window current).2 ≤ e.1)) &&
            e.2.cancelOk)) },
      (schedGet (p.navUpdate isNav dir).scheduled
        (p.navUpdate isNav dir).generation).filter (fun j =>
          ! (((p.navUpdate isNav dir).futures.filter (fun e =>
              (decide (e.1 < ((p.navUpdate isNav dir).window current).1) ||
                decide (((p.navUpdate isNav dir).window current).2 ≤ e.1)) &&
              e.2.cancelOk)).map (fun e => e.1)).contains j))
    i (mem_priorityOrder h1 h2) h0
    (by rw [navUpdate_numImages]; exact hN)
  exact hcov

/-- C8 (amended): whenever the effective radius in force for an
`update_prefetch` call is at least 1 and the focus lies inside
[radius, length - radius), the computed window contains the focus and both
immediate neighbours regardless of navigation direction, and after the call
each of the three is scheduled for the live generation or has a handle in
the futures table.  Only the trailing side of the asymmetric split is
explicitly floored at 1; the leading side is `r - trailing + 1`, which is at
least 1 exactly when the radius is — so the radius-1 floor claimed for both
sides only holds from radius 1 upwards, and the counterexample shows the
claim failing at effective radius 0. -/
theorem window_contains_neighbors (p : Prefetcher) (current : Int)
    (isNav : Bool) (dir : Option Int) (dispGen : Int)
    (hr : 1 ≤ (p.navUpdate isNav dir).effectiveRadius)
    (hlo : (p.navUpdate isNav dir).effectiveRadius ≤ current)
    (hhi : current <
      (p.numImages : Int) - (p.navUpdate isNav dir).effectiveRadius) :
    (((p.navUpdate isNav dir).window current).1 ≤ current - 1 ∧
      current + 1 < ((p.navUpdate isNav dir).window current).2) ∧
    (∀ i, i = current - 1 ∨ i = current ∨ i = current + 1 →
      i ∈ schedGet (p.update_prefetch current isNav dir dispGen).scheduled
          (p.update_prefetch current isNav dir dispGen).generation ∨
        (flookup
          (p.update_prefetch current isNav dir dispGen).futures i).isSome =
          true) := by
  have hhi2 : current <
      ((p.navUpdate isNav dir).numImages : Int) -
        (p.navUpdate isNav dir).effectiveRadius := by
    rw [navUpdate_numImages]
    exact hhi
  have hwb := window_bounds (p.navUpdate isNav dir) current hr hlo hhi2
  refine ⟨hwb, ?_⟩
  intro i hi
  have h0 : 0 ≤ i := by rcases hi with h | h | h <;> omega
  have hN : i < (p.numImages : Int) := by rcases hi with h | h | h <;> omega
  apply update_prefetch_covers p current isNav dir dispGen i ?_ ?_ h0 hN
  · rcases hi with h | h | h <;> omega
  · rcases hi with h | h | h <;> omega

/-- Prefetcher configured with radius 0 whose startup radius has already been
expanded away, used to refute the unconditional neighbour claim. -/
def zeroRadiusP : Prefetcher :=
  { Prefetcher.init 100 0 with radiusExpanded := true }

/-- C8 counterexample: with configured radius 0 (and the startup radius
expanded), the focus 5 lies inside [radius, length - radius) = [0, 100), yet
the computed window is [4, 6): the leading share of the split collapses to 0,
so focus + 1 = 6 is neither scheduled nor in flight after the call, while the
focus and focus - 1 are. -/
theorem window_neighbors_cex :
    zeroRadiusP.window 5 = (4, 6) ∧
    ¬ ((6 : Int) ∈ schedGet (zeroRadiusP.update_prefetch 5 false none 0).scheduled
        (zeroRadiusP.update_prefetch 5 false none 0).generation) ∧
    flookup (zeroRadiusP.update_prefetch 5 false none 0).futures 6 = none ∧
    ((5 : Int) ∈ schedGet (zeroRadiusP.update_prefetch 5 false none 0).scheduled
        (zeroRadiusP.update_prefetch 5 false none 0).generation) ∧
    ((4 : Int) ∈ schedGet (zeroRadiusP.update_prefetch 5 false none 0).scheduled
        (zeroRadiusP.update_prefetch 5 false none 0).generation) := by
  decide

/-- Witness for C8 (amended) at the fresh prefetcher (startup radius 2,
focus 50, 100 images): the window covers 49 to 51 and index 51 ends up
scheduled or in flight. -/
theorem window_contains_neighbors_witness :
    (1 ≤ ((Prefetcher.init 100 4).navUpdate false none).effectiveRadius) ∧
    ((((Prefetcher.init 100 4).navUpdate false none).window 50).1 ≤
        (50 : Int) - 1 ∧
      (50 : Int) + 1 <
        (((Prefetcher.init 100 4).navUpdate false none).window 50).2) ∧
    (((50 : Int) + 1) ∈ schedGet
        ((Prefetcher.init 100 4).update_prefetch 50 false none 0).scheduled
        ((Prefetcher.init 100 4).update_prefetch 50 false none 0).generation ∨
      (flookup ((Prefetcher.init 100 4).update_prefetch 50 false none
        0).futures ((50 : Int) + 1)).isSome = true) :=
  ⟨by decide,
   (window_contains_neighbors (Prefetcher.init 100 4) 50 false none 0
     (by decide) (by decide) (by decide)).1,
   (window_contains_neighbors (Prefetcher.init 100 4) 50 false none 0
     (by decide) (by decide) (by decide)).2 ((50 : Int) + 1)
     (Or.inr (Or.inr rfl))⟩

/-! ## Claim C2 -/

/-- View-parameter slice of `FastStackApp` relevant to the worker staleness
check: the display generation (`app.py` line 135), the zoom flag, and the
prefetcher generation.  The app bumps the two counters independently:
`_handle_resize` (lines 290-312) bumps the display generation and calls
`prefetcher.cancel_all`, but `set_zoomed` (lines 314-329) bumps only the
display generation. -/
structure AppView where
  displayGeneration : Int
  isZoomed : Bool
  prefGeneration : Int
deriving DecidableEq, Repr

/-- `FastStackApp.set_zoomed` (`app.py` lines 314-329): records the flag and
increments the display generation; the prefetcher generation is untouched
(no `cancel_all` on this path). -/
def AppView.set_zoomed (a : AppView) (z : Bool) : AppView :=
  { a with isZoomed := z, displayGeneration := a.displayGeneration + 1 }

/-- Task capture at submission: `submit_task(index, prefetcher.generation)`
reads the prefetcher generation, and inside `submit_task` the display
generation via `get_display_info()` (`app.py` lines 272-276). -/
def AppView.captureTask (a : AppView) (index : Int) : Task :=
  { index := index, path := index, gen := a.prefGeneration,
    dispGen := a.displayGeneration }

/-- A worker reaching its staleness checks now: both reads of
`self.generation` observe the live prefetcher generation of `a`. -/
def AppView.runWorker (a : AppView) (t : Task) (decodeOk : Bool) :
    WorkerOutcome :=
  decode_and_cache a.prefGeneration a.prefGeneration t decodeOk

/-- C2 counterexample: a task is captured at display generation 0 and
prefetcher generation 0; `set_zoomed` then bumps the display generation to 1
without touching the prefetcher generation; the worker passes its staleness
check (prefetcher generations match) and stores the entry under display
generation 0 — not the live display generation 1 at the moment of the check.
The claimed consequence, that no decoded entry is ever stored under a
generation that was not live at the moment of the check, is therefore
false. -/
theorem stale_display_generation_write_cex :
    ((AppView.mk 0 false 0).set_zoomed true).runWorker
        ((AppView.mk 0 false 0).captureTask 7) true =
      ⟨some (7, 0), some (7, 0)⟩ ∧
    ((AppView.mk 0 false 0).set_zoomed true).displayGeneration = 1 ∧
    ¬ ((0 : Int) = 1) := by decide

/-- C2 (amended): the worker compares the prefetcher generation captured at
submission against the live prefetcher generation — once before decoding and
once immediately before writing — and on mismatch, or on decode failure, it
returns None without calling `cache_put`; when it does write, the captured
prefetcher generation equals the live one at both checks, and the entry is
keyed by the display generation captured at submission, which (as the
counterexample shows) need not be the live display generation at the moment
of the check. -/
theorem worker_staleness_check (g1 g2 : Int) (t : Task) (ok : Bool) :
    (¬ t.gen = g1 → decode_and_cache g1 g2 t ok = ⟨none, none⟩) ∧
    (ok = false → decode_and_cache g1 g2 t ok = ⟨none, none⟩) ∧
    (¬ t.gen = g2 → decode_and_cache g1 g2 t ok = ⟨none, none⟩) ∧
    (∀ key, (decode_and_cache g1 g2 t ok).written = some key →
      key = (t.path, t.dispGen) ∧ t.gen = g1 ∧ t.gen = g2 ∧ ok = true) := by
  cases ok with
  | false =>
      have hres : decode_and_cache g1 g2 t false = ⟨none, none⟩ := by
        unfold decode_and_cache
        by_cases h1 : t.gen = g1
        · rw [if_neg (by simp [h1]), if_pos (by simp)]
        · rw [if_pos (by simp [h1])]
      refine ⟨fun _ => hres, fun _ => hres, fun _ => hres, ?_⟩
      intro key hk
      rw [hres] at hk
      simp at hk
  | true =>
      by_cases h1 : t.gen = g1
      · by_cases h2 : t.gen = g2
        · refine ⟨fun h => absurd h1 h, fun h => by simp at h,
            fun h => absurd h2 h, ?_⟩
          intro key hk
          unfold decode_and_cache at hk
          rw [if_neg (by simp [h1]), if_neg (by simp),
            if_neg (by simp [h2])] at hk
          exact ⟨(Option.some.inj hk).symm, h1, h2, rfl⟩
        · have hres : decode_and_cache g1 g2 t true = ⟨none, none⟩ := by
            unfold decode_and_cache
            rw [if_neg (by simp [h1]), if_neg (by simp),
              if_pos (by simp [h2])]
          refine ⟨fun h => absurd h1 h, fun h => by simp at h,
            fun _ => hres, ?_⟩
          intro key hk
          rw [hres] at hk
          simp at hk
      · have hres : decode_and_cache g1 g2 t true = ⟨none, none⟩ := by
          unfold decode_and_cache
          rw [if_pos (by simp [h1])]
        refine ⟨fun _ => hres, fun h => by simp at h, fun _ => hres, ?_⟩
        intro key hk
        rw [hres] at hk
        simp at hk

/-- Witness for C2 (amended): a task captured at prefetcher generation 5
checked against live generation 6 returns None and writes nothing. -/
theorem worker_staleness_check_witness :
    (¬ (Task.mk 7 7 5 0).gen = (6 : Int)) ∧
    decode_and_cache 6 6 ⟨7, 7, 5, 0⟩ true = ⟨none, none⟩ :=
  ⟨by decide,
   (worker_staleness_check 6 6 ⟨7, 7, 5, 0⟩ true).1 (by decide)⟩

/-! ## Blocking read path (`FastStackApp.get_decoded_image`) -/

/-- Outcome of the blocking wait `future.result(timeout=5.0)`: the value the
future returned (`None` or `(path, display_generation)`), or the exception it
raised (timeout, cancellation, or any other error). -/
inductive WaitOutcome where
  | completed (result : Option (Int × Int))
  | timedOut
  | cancelled
  | raised
deriving DecidableEq, Repr

/-- What a `get_decoded_image` call returned and did: its return value, the
updated `last_displayed_image`, and whether it consulted the cache or
submitted a task. -/
structure GetOutcome (V : Type) where
  ret : Option V
  lastDisplayed : Option V
  cacheConsulted : Bool
  taskSubmitted : Bool
deriving DecidableEq, Repr

/-- `FastStackApp.get_decoded_image` (`app.py` lines 444-572; the variant at
`faststack/app.py` lines 313-322 has the identical bounds guard).
The arguments stand for the state and environment the call observes:
`numImages` is `len(image_files)`; `editorPreview` is the background-rendered
preview returned when the editor/cropping branch fires, `none` when that
branch falls through; `cache0` is the cache at the initial lookup and
`cache1` the cache at the re-check after the wait (the worker writes before
the future completes, so the two snapshots may differ); `path` is the path
of `image_files[index]` and `displayGen` the live display generation from
`get_display_info()`; `lastDisplayed` is the current `last_displayed_image`;
`futureSome` is whether `submit_task` returned a future (it always does, but
the code still guards); `wait` is the outcome of the blocking wait.  All
wait exceptions are caught and logged, never propagated; hit/miss counters
and the decoding indicator are observability-only and omitted. -/
def getDecodedImage {V : Type} (numImages : Nat) (index : Int)
    (editorPreview : Option V) (cache0 cache1 : ByteLRUCache (Int × Int) V)
    (path displayGen : Int) (lastDisplayed : Option V) (futureSome : Bool)
    (wait : WaitOutcome) : GetOutcome V :=
  if decide (numImages = 0) || decide (index < 0) ||
      decide ((numImages : Int) ≤ index) then
    ⟨none, lastDisplayed, false, false⟩
  else
    match editorPreview with
    | some pv => ⟨some pv, lastDisplayed, false, false⟩
    | none =>
      match cache0.lookup (path, displayGen) with
      | some e => ⟨some e.val, some e.val, true, false⟩
      | none =>
        if ! futureSome then ⟨lastDisplayed, lastDisplayed, true, true⟩
        else
          match wait with
          | .timedOut => ⟨lastDisplayed, lastDisplayed, true, true⟩
          | .cancelled => ⟨lastDisplayed, lastDisplayed, true, true⟩
          | .raised => ⟨lastDisplayed, lastDisplayed, true, true⟩
          | .completed none => ⟨lastDisplayed, lastDisplayed, true, true⟩
          | .completed (some pg) =>
            match cache1.lookup pg with
            | some e => ⟨some e.val, some e.val, true, true⟩
            | none => ⟨lastDisplayed, lastDisplayed, true, true⟩

/-- C10: when the image list is empty or the requested index is outside
[0, length), `get_decoded_image` returns None immediately, without consulting
the cache or submitting a task, whatever `last_displayed_image` holds. -/
theorem out_of_bounds_returns_none {V : Type} [DecidableEq V]
    (numImages : Nat) (index : Int) (editorPreview : Option V)
    (cache0 cache1 : ByteLRUCache (Int × Int) V) (path displayGen : Int)
    (lastDisplayed : Option V) (futureSome : Bool) (wait : WaitOutcome)
    (h : numImages = 0 ∨ index < 0 ∨ (numImages : Int) ≤ index) :
    getDecodedImage numImages index editorPreview cache0 cache1 path
        displayGen lastDisplayed futureSome wait =
      ⟨none, lastDisplayed, false, false⟩ := by
  unfold getDecodedImage
  rw [if_pos]
  simp only [Bool.or_eq_true, decide_eq_true_eq]
  tauto

/-- Witness for C10: empty image list, index 2, with a previously displayed
entry present: the call returns None, does not consult the cache and does
not submit. -/
theorem out_of_bounds_returns_none_witness :
    ((0 : Nat) = 0 ∨ (2 : Int) < 0 ∨ ((0 : Nat) : Int) ≤ 2) ∧
    getDecodedImage 0 2 none
        (ByteLRUCache.init 100 : ByteLRUCache (Int × Int) Nat)
        (ByteLRUCache.init 100) 5 0 (some 42) true .timedOut =
      ⟨none, some 42, false, false⟩ :=
  ⟨Or.inl rfl,
   out_of_bounds_returns_none 0 2 none (ByteLRUCache.init 100)
     (ByteLRUCache.init 100) 5 0 (some 42) true .timedOut (Or.inl rfl)⟩

/-- C3: for a blocking read of an in-bounds index that misses the cache (and
is not intercepted by the editor preview), whenever the wait ends in timeout,
cancellation, another exception, or a None result, the call returns the most
recently successfully displayed entry instead of raising; and on every path
of the call it returns an empty result only when no previously displayed
entry exists. -/
theorem blocking_read_falls_back {V : Type} [DecidableEq V] (numImages : Nat)
    (index : Int) (cache0 cache1 : ByteLRUCache (Int × Int) V)
    (path displayGen : Int) (lastDisplayed : Option V) (futureSome : Bool)
    (wait : WaitOutcome)
    (hin : ¬ (numImages = 0 ∨ index < 0 ∨ (numImages : Int) ≤ index))
    (hmiss : cache0.lookup (path, displayGen) = none) :
    ((wait = .timedOut ∨ wait = .cancelled ∨ wait = .raised ∨
        wait = .completed none) →
      (getDecodedImage numImages index none cache0 cache1 path displayGen
        lastDisplayed futureSome wait).ret = lastDisplayed) ∧
    ((getDecodedImage numImages index none cache0 cache1 path displayGen
        lastDisplayed futureSome wait).ret = none →
      lastDisplayed = none) := by
  have h1 : ¬ numImages = 0 := fun h => hin (Or.inl h)
  have h2 : ¬ index < 0 := fun h => hin (Or.inr (Or.inl h))
  have h3 : ¬ (numImages : Int) ≤ index := fun h => hin (Or.inr (Or.inr h))
  refine ⟨?_, ?_⟩
  · intro hw
    cases futureSome <;>
      rcases hw with rfl | rfl | rfl | rfl <;>
        simp [getDecodedImage, h1, h2, h3, hmiss]
  · cases futureSome with
    | false => simp [getDecodedImage, h1, h2, h3, hmiss]
    | true =>
        cases wait with
        | timedOut => simp [getDecodedImage, h1, h2, h3, hmiss]
        | cancelled => simp [getDecodedImage, h1, h2, h3, hmiss]
        | raised => simp [getDecodedImage, h1, h2, h3, hmiss]
        | completed r =>
            cases r with
            | none => simp [getDecodedImage, h1, h2, h3, hmiss]
            | some pg =>
                cases hLk : cache1.lookup pg with
                | none => simp [getDecodedImage, h1, h2, h3, hmiss, hLk]
                | some e => simp [getDecodedImage, h1, h2, h3, hmiss, hLk]

/-- Witness for C3: in-bounds index 1 of a 3-image list, an empty cache, a
previously displayed entry 42, and a wait that times out: the call returns
that entry. -/
theorem blocking_read_falls_back_witness :
    (¬ ((3 : Nat) = 0 ∨ (1 : Int) < 0 ∨ ((3 : Nat) : Int) ≤ 1)) ∧
    ((ByteLRUCache.init 100 : ByteLRUCache (Int × Int) Nat).lookup (5, 0) =
      none) ∧
    (getDecodedImage 3 1 none
      (ByteLRUCache.init 100 : ByteLRUCache (Int × Int) Nat)
      (ByteLRUCache.init 100) 5 0 (some 42) true .timedOut).ret = some 42 :=
  ⟨by decide, by decide,
   (blocking_read_falls_back 3 1 (ByteLRUCache.init 100)
     (ByteLRUCache.init 100) 5 0 (some 42) true .timedOut (by decide)
     (by decide)).1 (Or.inl rfl)⟩

end FastStack
